import Mathlib

/-!
Verification development for the go-money library.

The library stores monetary amounts as signed 64-bit minor units paired
with a currency descriptor, performs arithmetic through an exact decimal
engine, converts results back to minor units with overflow detection, and
renders amounts as text under a validated format configuration.

Machine integers are embedded as unbounded `Int` with explicit range
predicates and explicit wrap-around where the Go code can overflow.
The external decimal engine (the `govalues/decimal` dependency, whose
source is not part of this repository) is modelled from the spec's
description: an exact decimal value with a bounded scale, exact
add/subtract/multiply-to-scale, exact divide-to-scale, and
round-half-to-even rounding, reporting scale overflow and division by
zero as failures.
-/

namespace GoMoney

/-- Largest signed 64-bit integer, 2^63 - 1. -/
def maxInt64 : Int := 9223372036854775807

/-- Smallest signed 64-bit integer, -2^63. -/
def minInt64 : Int := -9223372036854775808

/-- Range predicate for a value representable as a signed 64-bit integer. -/
def int64Range (n : Int) : Prop := minInt64 ≤ n ∧ n ≤ maxInt64

instance (n : Int) : Decidable (int64Range n) := by
  unfold int64Range; infer_instance

/-- Wrap-around of Go signed 64-bit integer arithmetic: reduce modulo 2^64
into the interval [-2^63, 2^63). -/
def wrap64 (n : Int) : Int :=
  let m := n % 18446744073709551616
  if m ≥ 9223372036854775808 then m - 18446744073709551616 else m

/-! ### Overflow-checked integer primitives (calc round.go) -/

/-- Embeds calc.absInt64: absolute value of a signed 64-bit integer as an
unsigned 64-bit integer (here a nonnegative Int), with the special case
for the minimum value whose direct negation overflows. -/
def absInt64 (x : Int) : Int :=
  if x ≥ 0 then x
  else if x = minInt64 then 9223372036854775808
  else -x

/-- Embeds calc.mulInt64: checked signed 64-bit multiplication. Returns the
product and true, or 0 and false on overflow. The Go cast
int64(absA*absB) is embedded as an explicit wrap. -/
def mulInt64 (a b : Int) : Int × Bool :=
  if a = 0 ∨ b = 0 then (0, true)
  else if a = minInt64 ∧ b = 1 then (minInt64, true)
  else if a = minInt64 ∧ b = -1 then (0, false)
  else if b = minInt64 ∧ a = 1 then (minInt64, true)
  else if b = minInt64 ∧ a = -1 then (0, false)
  else
    let absA := absInt64 a
    let absB := absInt64 b
    if absA > maxInt64 / absB then (0, false)
    else
      let prod := wrap64 (absA * absB)
      if decide (a < 0) ≠ decide (b < 0) then (-prod, true) else (prod, true)

/-- Embeds calc.addInt64: checked signed 64-bit addition. Returns the sum
and true, or 0 and false on overflow. -/
def addInt64 (a b : Int) : Int × Bool :=
  if b > 0 ∧ a > maxInt64 - b then (0, false)
  else if b < 0 ∧ a < minInt64 - b then (0, false)
  else (a + b, true)

/-- Loop body of calc.pow10Int64: multiply the accumulator by 10 the given
number of times, failing as soon as the accumulator exceeds MaxInt64/10. -/
def pow10go (v : Int) : Nat → Option Int
  | 0 => some v
  | n + 1 => if v > 922337203685477580 then none else pow10go (v * 10) n

/-- Embeds calc.pow10Int64: 10^scale if it fits in a signed 64-bit
integer, failure for a negative scale or on overflow. -/
def pow10Int64 (scale : Int) : Option Int :=
  if scale < 0 then none else pow10go 1 scale.toNat

/-- Embeds calc.combineInt64: assemble whole and fractional parts into
minor units as whole * 10^scale + frac, failing on any overflow. -/
def combineInt64 (whole frac : Int) (scale : Int) : Option Int :=
  if scale < 0 then none
  else if scale = 0 then some whole
  else
    match pow10Int64 scale with
    | none => none
    | some factor =>
      let m := mulInt64 whole factor
      if m.2 = false then none
      else
        let a := addInt64 m.1 frac
        if a.2 = false then none
        else some a.1

/-! ### Model of the external decimal engine -/

/-- Modelled from the spec: a decimal value of the external engine, a
signed coefficient with a scale (number of fractional digits); the value
is coef / 10^scale. -/
structure Dec where
  coef : Int
  scale : Nat
  deriving DecidableEq, Repr

/-- Maximum scale supported by the external decimal engine. -/
def decMaxScale : Int := 19

/-- Round n / d (for d nonzero) to the nearest integer, ties to even. -/
def rdivE (n d : Int) : Int :=
  let dd := if d < 0 then -d else d
  let nn := if d < 0 then -n else n
  let q := nn / dd
  let r := nn % dd
  if 2 * r < dd then q
  else if 2 * r > dd then q + 1
  else if q % 2 = 0 then q else q + 1

/-- Modelled from the spec: decimal construction value / 10^scale, failing
when the scale is negative or exceeds the engine's maximum. -/
def decNew (value scale : Int) : Option Dec :=
  if 0 ≤ scale ∧ scale ≤ decMaxScale then some ⟨value, scale.toNat⟩ else none

/-- Modelled from the spec: exact decimal addition at the larger scale. -/
def decAdd (a b : Dec) : Dec :=
  let m := max a.scale b.scale
  ⟨a.coef * 10 ^ (m - a.scale) + b.coef * 10 ^ (m - b.scale), m⟩

/-- Modelled from the spec: exact decimal subtraction at the larger scale. -/
def decSub (a b : Dec) : Dec :=
  let m := max a.scale b.scale
  ⟨a.coef * 10 ^ (m - a.scale) - b.coef * 10 ^ (m - b.scale), m⟩

/-- Modelled from the spec: three-way decimal comparison with no rounding. -/
def decCmp (a b : Dec) : Int :=
  let m := max a.scale b.scale
  let x := a.coef * 10 ^ (m - a.scale)
  let y := b.coef * 10 ^ (m - b.scale)
  if x < y then -1 else if x = y then 0 else 1

/-- Modelled from the spec: round a decimal to the given number of
fractional digits with round-half-to-even; a decimal already at or below
the target scale is returned unchanged. -/
def decRound (d : Dec) (s : Int) : Dec :=
  let t := s.toNat
  if d.scale ≤ t then d else ⟨rdivE d.coef (10 ^ (d.scale - t)), t⟩

/-- Modelled from the spec: split a decimal into whole and fractional
parts with d = whole + frac / 10^s, both truncated toward zero and
carrying the sign of d, failing when either part does not fit in a
signed 64-bit integer (the pipeline only calls this at a scale no
smaller than the decimal's own scale). -/
def decInt64 (d : Dec) (s : Int) : Option (Int × Int) :=
  if 0 ≤ s ∧ (d.scale : Int) ≤ s then
    let t := s.toNat
    let c := d.coef * 10 ^ (t - d.scale)
    let sign : Int := if c < 0 then -1 else 1
    let n := c.natAbs
    let w : Int := sign * (n / 10 ^ t : Nat)
    let f : Int := sign * (n % 10 ^ t : Nat)
    if int64Range w ∧ int64Range f then some (w, f) else none
  else none

/-- Modelled from the spec: exact decimal multiplication carrying the
result at the requested scale (the pipeline always requests exactly the
sum of the operand scales), failing when the requested scale is outside
the engine's supported range or below the exact product's scale. -/
def decMulExact (a b : Dec) (s : Int) : Option Dec :=
  if 0 ≤ s ∧ ((a.scale : Int) + b.scale) ≤ s ∧ s ≤ decMaxScale then
    some ⟨a.coef * b.coef * 10 ^ (s.toNat - (a.scale + b.scale)), s.toNat⟩
  else none

/-- Modelled from the spec: exact decimal division targeting the given
number of fractional digits with round-half-to-even, failing on a zero
divisor or a scale outside the engine's supported range. -/
def decQuoExact (a b : Dec) (s : Int) : Option Dec :=
  if b.coef = 0 then none
  else if 0 ≤ s ∧ s ≤ decMaxScale then
    some ⟨rdivE (a.coef * 10 ^ (s.toNat + b.scale)) (b.coef * 10 ^ a.scale), s.toNat⟩
  else none

/-! ### Arithmetic engine (package calc) -/

/-- Embeds calc.newAmount: wrap minor units into a decimal at the
provided scale. -/
def newAmount (value scale : Int) : Option Dec :=
  decNew value scale

/-- Embeds calc.roundToMinor (and calc.Round): round a decimal to minor
units at the given scale, split it into whole and fractional parts, and
recombine them with overflow detection. -/
def calcRound (d : Dec) (scale : Int) : Option Int := do
  let rounded := decRound d scale
  let (whole, frac) ← decInt64 rounded scale
  combineInt64 whole frac scale

/-- Embeds calc.Add: sum of two minor-unit amounts at the given scale. -/
def calcAdd (a b scale : Int) : Option Int := do
  let da ← newAmount a scale
  let db ← newAmount b scale
  calcRound (decAdd da db) scale

/-- Embeds calc.Sub: difference of two minor-unit amounts at the given
scale. -/
def calcSub (a b scale : Int) : Option Int := do
  let da ← newAmount a scale
  let db ← newAmount b scale
  calcRound (decSub da db) scale

/-- Embeds calc.percentMultiplier: decimal multiplier (100 ± percent)/100
with 2 implied fractional digits; the Go additions base += percent and
base -= percent wrap on signed 64-bit overflow. -/
def percentMultiplier (percent : Int) (add : Bool) : Option Dec :=
  let base : Int := if add then wrap64 (100 + percent) else wrap64 (100 - percent)
  decNew base 2

/-- Embeds amount.multiply: multiply by a decimal multiplier at the sum
of the scales, rejecting a scale above the engine's maximum. -/
def amountMultiply (a mult : Dec) : Option Dec :=
  let scale : Int := (a.scale : Int) + (mult.scale : Int)
  if scale > decMaxScale then none
  else decMulExact a mult scale

/-- Embeds amount.divide: divide by a decimal divisor targeting the given
scale. -/
def amountDivide (a div : Dec) (scale : Int) : Option Dec :=
  decQuoExact a div scale

/-- Embeds calc.AddPercent: integer percent increase of a minor-unit
amount. -/
def calcAddPercent (value percent scale : Int) : Option Int := do
  let da ← newAmount value scale
  let mult ← percentMultiplier percent true
  let out ← amountMultiply da mult
  calcRound out scale

/-- Embeds calc.SubtractPercent: integer percent decrease of a minor-unit
amount. -/
def calcSubtractPercent (value percent scale : Int) : Option Int := do
  let da ← newAmount value scale
  let mult ← percentMultiplier percent false
  let out ← amountMultiply da mult
  calcRound out scale

/-- Embeds calc.Compare: three-way comparison of two minor-unit amounts
at the given scale, with no rounding. -/
def calcCompare (a b scale : Int) : Option Int := do
  let da ← newAmount a scale
  let db ← newAmount b scale
  pure (decCmp da db)

/-- Embeds calc.Div: divide a minor-unit amount by an integer divisor at
the given scale. -/
def calcDiv (value divisor scale : Int) : Option Int := do
  let da ← newAmount value scale
  let div ← decNew divisor 0
  let out ← amountDivide da div scale
  calcRound out scale

/-! ### Money facade -/

/-- Embeds Currency: an ISO-4217 code, a decimal scale (a Go int32,
embedded as Int) and a display symbol. -/
structure Currency where
  Code : String
  Scale : Int
  Symbol : String
  deriving DecidableEq, Repr

/-- Embeds Money: an immutable amount in minor units with a currency. -/
structure Money where
  amount : Int
  currency : Currency
  deriving DecidableEq, Repr

/-- The two public error values of the library: ErrCurrencyMismatch and
ErrInvalidOperation. -/
inductive MoneyErr where
  | currencyMismatch
  | invalidOperation
  deriving DecidableEq, Repr

/-- Embeds New: construct a Money from minor units and a currency. -/
def Money.New (amount : Int) (currency : Currency) : Money :=
  ⟨amount, currency⟩

/-- Embeds Zero: a zero amount in the given currency. -/
def Money.Zero (currency : Currency) : Money :=
  ⟨0, currency⟩

/-- Embeds sameCurrency: field-by-field currency equality over code,
scale and symbol. -/
def sameCurrency (a b : Currency) : Bool :=
  a.Code == b.Code && a.Scale == b.Scale && a.Symbol == b.Symbol

/-- Embeds Money.Add: currency-checked addition, mapping a calc failure
to ErrInvalidOperation. -/
def Money.Add (m x : Money) : Except MoneyErr Money :=
  if sameCurrency m.currency x.currency then
    match calcAdd m.amount x.amount m.currency.Scale with
    | some amount => .ok ⟨amount, m.currency⟩
    | none => .error .invalidOperation
  else .error .currencyMismatch

/-- Embeds Money.Sub: currency-checked subtraction, mapping a calc
failure to ErrInvalidOperation. -/
def Money.Sub (m x : Money) : Except MoneyErr Money :=
  if sameCurrency m.currency x.currency then
    match calcSub m.amount x.amount m.currency.Scale with
    | some amount => .ok ⟨amount, m.currency⟩
    | none => .error .invalidOperation
  else .error .currencyMismatch

/-- Embeds Money.AddPercent: integer percentage increase. -/
def Money.AddPercent (m : Money) (percent : Int) : Except MoneyErr Money :=
  match calcAddPercent m.amount percent m.currency.Scale with
  | some amount => .ok ⟨amount, m.currency⟩
  | none => .error .invalidOperation

/-- Embeds Money.SubtractPercent: integer percentage decrease. -/
def Money.SubtractPercent (m : Money) (percent : Int) : Except MoneyErr Money :=
  match calcSubtractPercent m.amount percent m.currency.Scale with
  | some amount => .ok ⟨amount, m.currency⟩
  | none => .error .invalidOperation

/-- Embeds Money.Equal: false on a currency mismatch, false when the
internal comparison fails, otherwise comparison equal to zero. -/
def Money.Equal (m x : Money) : Bool :=
  if sameCurrency m.currency x.currency then
    match calcCompare m.amount x.amount m.currency.Scale with
    | some cmp => cmp == 0
    | none => false
  else false

/-- Embeds Money.GreaterThan: currency-checked strict order. -/
def Money.GreaterThan (m x : Money) : Except MoneyErr Bool :=
  if sameCurrency m.currency x.currency then
    match calcCompare m.amount x.amount m.currency.Scale with
    | some cmp => .ok (cmp > 0)
    | none => .error .invalidOperation
  else .error .currencyMismatch

/-- Embeds Money.LessThan: currency-checked strict order. -/
def Money.LessThan (m x : Money) : Except MoneyErr Bool :=
  if sameCurrency m.currency x.currency then
    match calcCompare m.amount x.amount m.currency.Scale with
    | some cmp => .ok (cmp < 0)
    | none => .error .invalidOperation
  else .error .currencyMismatch

/-- Embeds Money.IsZero. -/
def Money.IsZero (m : Money) : Bool := m.amount == 0

/-- Embeds Money.IsPositive. -/
def Money.IsPositive (m : Money) : Bool := m.amount > 0

/-- Embeds Money.IsNegative. -/
def Money.IsNegative (m : Money) : Bool := m.amount < 0

/-- Modelled from the spec: the public div(divisor) operation on Money
(only its caller-side tests appear under src/); per the spec it delegates
to the arithmetic engine's div at the currency scale and maps a failure
to the invalid-operation error, like every other arithmetic wrapper. -/
def Money.Div (m : Money) (divisor : Int) : Except MoneyErr Money :=
  match calcDiv m.amount divisor m.currency.Scale with
  | some amount => .ok ⟨amount, m.currency⟩
  | none => .error .invalidOperation

/-! ### Rendering engine and format configuration

Go strings are byte slices; every slicing operation below is applied to
ASCII digit strings only (one byte per character), so Lean's character
lists embed them faithfully, and utf8.RuneCountInString corresponds to
String.length (Lean chars are unicode scalar values, i.e. runes). -/

/-- SymbolPosition constant SymbolPrefix (the Go iota value 0); the
source name cannot be used verbatim here. -/
def SymbolPrefixPos : Int := 0

/-- SymbolPosition constant SymbolSuffix (the Go iota value 1). -/
def SymbolSuffix : Int := 1

/-- SymbolKind constant SymbolUseCurrencySymbol (the Go iota value 0). -/
def SymbolUseCurrencySymbol : Int := 0

/-- SymbolKind constant SymbolUseCurrencyCode (the Go iota value 1). -/
def SymbolUseCurrencyCode : Int := 1

/-- SymbolKind constant SymbolUseCustom (the Go iota value 2). -/
def SymbolUseCustom : Int := 2

/-- Embeds FormatConfig: rendering configuration; the two enum fields are
Go int32 values embedded as Int. -/
structure FormatConfig where
  DecimalSeparator : String
  ThousandsSeparator : String
  SymbolPosition : Int
  SymbolKind : Int
  CustomSymbol : String
  Space : Bool
  deriving DecidableEq, Repr

/-- Embeds the configuration stored by the package init function: the
initial global format configuration. -/
def initFormatConfig : FormatConfig :=
  ⟨".", "", SymbolPrefixPos, SymbolUseCurrencySymbol, "", false⟩

/-- Embeds validateFormat: the validation rules applied by both the
global setter and per-call formatting. -/
def validateFormat (cfg : FormatConfig) : Option MoneyErr :=
  if cfg.DecimalSeparator = "" then some .invalidOperation
  else if cfg.DecimalSeparator.length ≠ 1 then some .invalidOperation
  else if cfg.ThousandsSeparator ≠ "" ∧ cfg.ThousandsSeparator.length ≠ 1 then
    some .invalidOperation
  else if cfg.ThousandsSeparator ≠ "" ∧ cfg.ThousandsSeparator = cfg.DecimalSeparator then
    some .invalidOperation
  else if cfg.SymbolKind = SymbolUseCustom ∧ cfg.CustomSymbol = "" then
    some .invalidOperation
  else if cfg.SymbolPosition ≠ SymbolPrefixPos ∧ cfg.SymbolPosition ≠ SymbolSuffix then
    some .invalidOperation
  else if cfg.SymbolKind ≠ SymbolUseCurrencySymbol ∧ cfg.SymbolKind ≠ SymbolUseCurrencyCode
      ∧ cfg.SymbolKind ≠ SymbolUseCustom then
    some .invalidOperation
  else none

/-- Embeds formatSymbol: resolve the symbol text from the currency or the
configuration; failure stands for the ErrInvalidOperation return. -/
def formatSymbol (currency : Currency) (cfg : FormatConfig) : Option String :=
  if cfg.SymbolKind = SymbolUseCurrencySymbol then some currency.Symbol
  else if cfg.SymbolKind = SymbolUseCurrencyCode then some currency.Code
  else if cfg.SymbolKind = SymbolUseCustom then
    if cfg.CustomSymbol = "" then none else some cfg.CustomSymbol
  else none

/-- Embeds signPrefix (the source name cannot be used verbatim here):
the sign text, a minus sign for a negative amount. -/
def signText (amount : Int) : String :=
  if amount < 0 then "-" else ""

/-- Embeds absInt64String: decimal digits of the absolute value of a
signed 64-bit amount, with the minimum value handled via its unsigned
magnitude. -/
def absInt64String (amount : Int) : String :=
  if amount ≥ 0 then Nat.repr amount.toNat
  else if amount = minInt64 then Nat.repr 9223372036854775808
  else Nat.repr (-amount).toNat

/-- Embeds splitAmount: split a digit string into integer and fractional
parts at the currency scale, left-padding with zeros so a fractional
part of the full width always exists; a nonpositive scale yields no
fractional part. -/
def splitAmount (absDigits : String) (scale : Int) : String × String :=
  if scale ≤ 0 then (absDigits, "")
  else
    let sc := scale.toNat
    let ds := absDigits.data
    let padded := if ds.length ≤ sc then List.replicate (sc - ds.length + 1) '0' ++ ds else ds
    (String.mk (padded.take (padded.length - sc)),
     String.mk (padded.drop (padded.length - sc)))

/-- Loop of groupThousands: emit the separator followed by the next group
of three digits; the source loop always consumes exactly three bytes per
iteration, so the short trailing cases are never reached on its inputs. -/
def groupTail (sep : List Char) : List Char → List Char
  | [] => []
  | [a] => sep ++ [a]
  | [a, b] => sep ++ [a, b]
  | a :: b :: c :: rest => (sep ++ [a, b, c]) ++ groupTail sep rest

/-- Embeds groupThousands: group the integer digits into runs of three
from the right, the first group holding one to three digits. -/
def groupThousands (intPart sep : String) : String :=
  if intPart.length ≤ 3 then intPart
  else
    let n := intPart.length
    let start := if n % 3 = 0 then 3 else n % 3
    String.mk (intPart.data.take start ++ groupTail sep.data (intPart.data.drop start))

/-- The amount text assembled by formatWithConfig before the symbol is
attached: grouped integer digits, then the decimal separator and the
fractional digits when a fractional part exists. -/
def amountText (m : Money) (cfg : FormatConfig) : String :=
  let absDigits := absInt64String m.amount
  let parts := splitAmount absDigits m.currency.Scale
  let intPart := if cfg.ThousandsSeparator ≠ "" then
    groupThousands parts.1 cfg.ThousandsSeparator else parts.1
  if parts.2 ≠ "" then intPart ++ cfg.DecimalSeparator ++ parts.2 else intPart

/-- The separator placed between the symbol and the amount by
formatWithConfig: a space only when requested and the symbol is
non-empty. -/
def sepText (cfg : FormatConfig) (symbol : String) : String :=
  if symbol = "" then "" else if cfg.Space then " " else ""

/-- Embeds formatWithConfig: compose sign, symbol, optional space and
amount text according to the symbol position. -/
def formatWithConfig (m : Money) (cfg : FormatConfig) : Option String :=
  match formatSymbol m.currency cfg with
  | none => none
  | some symbol =>
    let sep := sepText cfg symbol
    if cfg.SymbolPosition = SymbolSuffix then
      some (signText m.amount ++ amountText m cfg ++ sep ++ symbol)
    else
      some (signText m.amount ++ symbol ++ sep ++ amountText m cfg)

/-- Embeds Money.Format: per-call rendering behind validation. -/
def Money.Format (m : Money) (cfg : FormatConfig) : Except MoneyErr String :=
  match validateFormat cfg with
  | some e => .error e
  | none =>
    match formatWithConfig m cfg with
    | some s => .ok s
    | none => .error .invalidOperation

/-- Embeds Money.String, with the current global configuration (the
DefaultFormat() read) passed explicitly: a rendering failure degrades to
the empty string. -/
def Money.String (m : Money) (current : FormatConfig) : String :=
  match formatWithConfig m current with
  | some text => text
  | none => ""

/-- Embeds SetFormat acting on the global store: a configuration that
passes validation replaces the stored one, a rejected call leaves the
store unchanged. The returned error is the one SetFormat reports. -/
def setFormatStep (st cfg : FormatConfig) : Option MoneyErr × FormatConfig :=
  match validateFormat cfg with
  | some e => (some e, st)
  | none => (none, cfg)

/-- The configuration held by the global store after the init value was
stored and an arbitrary sequence of SetFormat calls was applied. -/
def storeAfter (cfgs : List FormatConfig) : FormatConfig :=
  cfgs.foldl (fun st cfg => (setFormatStep st cfg).2) initFormatConfig

/-! ### Support lemmas on the overflow-checked primitives -/

theorem absInt64_abs (x : Int) (hx : int64Range x) : absInt64 x = |x| := by
  unfold absInt64 int64Range minInt64 at *
  split
  · rename_i hge
    exact (abs_of_nonneg hge).symm
  · rename_i hge
    rw [abs_of_neg (by omega)]
    split <;> omega

theorem wrap64_eq_self (n : Int) (h1 : minInt64 ≤ n) (h2 : n ≤ maxInt64) :
    wrap64 n = n := by
  show (if n % 18446744073709551616 ≥ 9223372036854775808
        then n % 18446744073709551616 - 18446744073709551616
        else n % 18446744073709551616) = n
  unfold minInt64 maxInt64 at *
  split <;> omega

theorem addInt64_ok (a b : Int) (h : int64Range (a + b)) :
    addInt64 a b = (a + b, true) := by
  unfold addInt64 int64Range minInt64 maxInt64 at *
  split
  · omega
  · split
    · omega
    · rfl

theorem addInt64_overflow (a b : Int) (ha : int64Range a) (hb : int64Range b)
    (h : ¬ int64Range (a + b)) : addInt64 a b = (0, false) := by
  unfold addInt64 int64Range minInt64 maxInt64 at *
  split
  · rfl
  · split
    · rfl
    · omega

theorem mulInt64_ok (a b : Int) (ha : int64Range a) (hb : int64Range b)
    (h : |a * b| ≤ maxInt64) : mulInt64 a b = (a * b, true) := by
  have haa : absInt64 a = |a| := absInt64_abs a ha
  have hbb : absInt64 b = |b| := absInt64_abs b hb
  have habs : |a| * |b| = |a * b| := (abs_mul a b).symm
  simp only [mulInt64, haa, hbb]
  split_ifs with h0 h1 h2 h3 h4 h5 h6
  · rcases h0 with h0 | h0 <;> simp [h0]
  · exfalso; rw [h1.1, h1.2] at h; simp [minInt64, maxInt64] at h
  · exfalso; rw [h2.1, h2.2] at h; simp [minInt64, maxInt64] at h
  · exfalso; rw [h3.1, h3.2] at h; simp [minInt64, maxInt64] at h
  · exfalso; rw [h4.1, h4.2] at h; simp [minInt64, maxInt64] at h
  · exfalso
    have hbne : b ≠ 0 := fun hc => h0 (Or.inr hc)
    have hbpos : 0 < |b| := abs_pos.mpr hbne
    have hle : |a| ≤ maxInt64 / |b| :=
      (Int.le_ediv_iff_mul_le hbpos).mpr (by rw [habs]; exact h)
    omega
  · have hane : a ≠ 0 := fun hc => h0 (Or.inl hc)
    have hbne : b ≠ 0 := fun hc => h0 (Or.inr hc)
    have hw : wrap64 (|a| * |b|) = |a * b| := by
      rw [habs]
      exact wrap64_eq_self _ (by unfold minInt64; have := abs_nonneg (a * b); omega) h
    rw [hw]
    have hsgn : ¬ (a < 0 ↔ b < 0) := by simpa [decide_eq_decide] using h6
    have hab : a * b ≤ 0 := by
      rcases lt_trichotomy a 0 with hx | hx | hx
      · have hbpos : 0 < b := by
          rcases lt_trichotomy b 0 with hy | hy | hy
          · exact absurd (Iff.intro (fun _ => hy) (fun _ => hx)) hsgn
          · exact absurd hy hbne
          · exact hy
        exact le_of_lt (mul_neg_of_neg_of_pos hx hbpos)
      · exact absurd hx hane
      · have hbneg : b < 0 := by
          rcases lt_trichotomy b 0 with hy | hy | hy
          · exact hy
          · exact absurd hy hbne
          · exact absurd (Iff.intro (fun hz => absurd hx (asymm hz))
              (fun hz => absurd hz (asymm hy))) hsgn
        exact le_of_lt (mul_neg_of_pos_of_neg hx hbneg)
    rw [abs_of_nonpos hab]
    simp
  · have hane : a ≠ 0 := fun hc => h0 (Or.inl hc)
    have hbne : b ≠ 0 := fun hc => h0 (Or.inr hc)
    have hw : wrap64 (|a| * |b|) = |a * b| := by
      rw [habs]
      exact wrap64_eq_self _ (by unfold minInt64; have := abs_nonneg (a * b); omega) h
    rw [hw]
    have hsgn : a < 0 ↔ b < 0 := decide_eq_decide.mp (not_ne_iff.mp h6)
    have hab : 0 ≤ a * b := by
      by_cases hx : a < 0
      · exact le_of_lt (mul_pos_of_neg_of_neg hx (hsgn.mp hx))
      · exact mul_nonneg (not_lt.mp hx) (not_lt.mp (fun hy => hx (hsgn.mpr hy)))
    rw [abs_of_nonneg hab]

theorem mulInt64_overflow (a b : Int) (ha : int64Range a) (hb : int64Range b)
    (h : maxInt64 < |a * b|)
    (hna : ¬ (a = minInt64 ∧ b = 1)) (hnb : ¬ (b = minInt64 ∧ a = 1)) :
    (mulInt64 a b).2 = false := by
  have haa : absInt64 a = |a| := absInt64_abs a ha
  have hbb : absInt64 b = |b| := absInt64_abs b hb
  have habs : |a| * |b| = |a * b| := (abs_mul a b).symm
  have hane : a ≠ 0 := by
    intro hc; rw [hc] at h; simp [maxInt64] at h
  have hbne : b ≠ 0 := by
    intro hc; rw [hc] at h; simp [maxInt64] at h
  simp only [mulInt64, haa, hbb]
  split_ifs with h0 h1 h2 h3 h4
  · exact absurd h0 (by push_neg; exact ⟨hane, hbne⟩)
  · rfl
  · rfl
  · rfl
  · exfalso
    have hbpos : 0 < |b| := abs_pos.mpr hbne
    have hle : |a| ≤ maxInt64 / |b| := not_lt.mp h3
    rw [Int.le_ediv_iff_mul_le hbpos, habs] at hle
    omega
  · exfalso
    have hbpos : 0 < |b| := abs_pos.mpr hbne
    have hle : |a| ≤ maxInt64 / |b| := not_lt.mp h3
    rw [Int.le_ediv_iff_mul_le hbpos, habs] at hle
    omega

theorem pow10Int64_ok (sc : Int) (h0 : 0 ≤ sc) (h18 : sc ≤ 18) :
    pow10Int64 sc = some ((10 : Int) ^ sc.toNat) := by
  interval_cases sc <;> decide

theorem pow10go_none (r : Nat) : pow10go 1 (r + 19) = none := by
  norm_num [pow10go]

theorem pow10Int64_none (sc : Int) (h : 19 ≤ sc) : pow10Int64 sc = none := by
  unfold pow10Int64
  rw [if_neg (by omega)]
  have hr : sc.toNat = (sc.toNat - 19) + 19 := by omega
  rw [hr]
  exact pow10go_none _

theorem sgn_mul_natAbs (s : Int) :
    (if s < 0 then (-1 : Int) else 1) * (s.natAbs : Int) = s := by
  split <;> omega

theorem pow_not_dvd_pow63 (t : Nat) (ht : t ≠ 0)
    (h : (10 : Nat) ^ t ∣ 9223372036854775808) : False := by
  have h5 : (5 : Nat) ∣ 10 ^ t := dvd_trans (by norm_num) (dvd_pow_self 10 ht)
  have := h5.trans h
  norm_num at this

theorem sigma_mul_range (s : Int) (hs : int64Range s) (m : Nat)
    (hm : m ≤ s.natAbs) : int64Range ((if s < 0 then (-1 : Int) else 1) * m) := by
  unfold int64Range minInt64 maxInt64 at *
  split <;> constructor <;> omega

theorem calcRound_exact_some (s sc : Int) (h0 : 0 ≤ sc) (h18 : sc ≤ 18)
    (hs : int64Range s) : calcRound ⟨s, sc.toNat⟩ sc = some s := by
  have hR : decRound ⟨s, sc.toNat⟩ sc = ⟨s, sc.toNat⟩ := by
    unfold decRound
    simp
  obtain ⟨t, ht⟩ : ∃ t, sc.toNat = t := ⟨_, rfl⟩
  have htsc : (t : Int) = sc := by omega
  have ht18 : t ≤ 18 := by omega
  obtain ⟨P, hP⟩ : ∃ P, (10 : Nat) ^ t = P := ⟨_, rfl⟩
  have hP1 : 1 ≤ P := hP ▸ Nat.one_le_pow t 10 (by norm_num)
  have hPle : P ≤ 10 ^ 18 := hP ▸ Nat.pow_le_pow_right (by norm_num) ht18
  obtain ⟨n, hn⟩ : ∃ n, s.natAbs = n := ⟨_, rfl⟩
  have hn64 : n ≤ 9223372036854775808 := by
    unfold int64Range minInt64 maxInt64 at hs; omega
  obtain ⟨q, hq⟩ : ∃ q, n / P = q := ⟨_, rfl⟩
  obtain ⟨r, hr⟩ : ∃ r, n % P = r := ⟨_, rfl⟩
  have hdiv : q ≤ n := hq ▸ Nat.div_le_self n P
  have hmodle : r ≤ n := hr ▸ Nat.mod_le n P
  have hdm : q * P + r = n := by
    rw [← hq, ← hr, mul_comm (n / P) P]
    exact Nat.div_add_mod n P
  have hσn : (if s < 0 then (-1 : Int) else 1) * (n : Int) = s := by
    rw [← hn]; exact sgn_mul_natAbs s
  have hwrange : int64Range ((if s < 0 then (-1 : Int) else 1) * (q : Int)) :=
    sigma_mul_range s hs q (hn ▸ hdiv)
  have hfrange : int64Range ((if s < 0 then (-1 : Int) else 1) * (r : Int)) :=
    sigma_mul_range s hs r (hn ▸ hmodle)
  have hI : decInt64 ⟨s, t⟩ sc = some
      ((if s < 0 then (-1 : Int) else 1) * (q : Int),
       (if s < 0 then (-1 : Int) else 1) * (r : Int)) := by
    unfold decInt64
    rw [if_pos ⟨h0, by simp [htsc]⟩]
    dsimp only
    simp only [ht, Nat.sub_self, pow_zero, mul_one, hP, hn, hq, hr]
    rw [if_pos ⟨hwrange, hfrange⟩]
  have hgoal : calcRound ⟨s, t⟩ sc = some s := by
    unfold calcRound
    simp only [show decRound ⟨s, t⟩ sc = ⟨s, t⟩ from ht ▸ hR, hI]
    show combineInt64 _ _ sc = some s
    unfold combineInt64
    rw [if_neg (by omega)]
    by_cases hsc0 : sc = 0
    · rw [if_pos hsc0]
      have ht0 : t = 0 := by omega
      have hP1' : P = 1 := by rw [← hP, ht0, pow_zero]
      have hq' : q = n := by rw [← hq, hP1', Nat.div_one]
      rw [hq', hσn]
    · rw [if_neg hsc0]
      have hsc1 : 1 ≤ sc := by omega
      have ht1 : t ≠ 0 := by omega
      rw [pow10Int64_ok sc h0 h18]
      dsimp only
      have hcast : ((10 : Int) ^ sc.toNat) = ((P : Nat) : Int) := by
        rw [ht, ← hP]; push_cast; rfl
      have hqPmax : q * P ≤ 9223372036854775807 := by
        by_cases hn' : n = 9223372036854775808
        · have hr1 : r ≠ 0 := by
            intro hc
            have hdvd : P ∣ n := Nat.dvd_of_mod_eq_zero (hr ▸ hc)
            rw [hn', ← hP] at hdvd
            exact pow_not_dvd_pow63 t ht1 hdvd
          omega
        · omega
      have hwP : (if s < 0 then (-1 : Int) else 1) * (q : Int) * ((P : Nat) : Int)
          = (if s < 0 then (-1 : Int) else 1) * ((q * P : Nat) : Int) := by
        push_cast
        ring
      have habsσ : |if s < 0 then (-1 : Int) else 1| = 1 := by
        split <;> simp
      have habsle : |(if s < 0 then (-1 : Int) else 1) * (q : Int) * ((P : Nat) : Int)|
          ≤ maxInt64 := by
        rw [hwP, abs_mul, habsσ, one_mul, abs_of_nonneg (Int.natCast_nonneg (q * P))]
        unfold maxInt64
        exact_mod_cast hqPmax
      have hPrange : int64Range ((P : Nat) : Int) := by
        unfold int64Range minInt64 maxInt64
        constructor
        · exact le_trans (by norm_num) (Int.natCast_nonneg P)
        · exact_mod_cast le_trans hPle (by norm_num)
      have hmul := mulInt64_ok ((if s < 0 then (-1 : Int) else 1) * (q : Int))
        ((P : Nat) : Int) hwrange hPrange habsle
      have hwfP : (if s < 0 then (-1 : Int) else 1) * (q : Int) * ((P : Nat) : Int)
          + (if s < 0 then (-1 : Int) else 1) * (r : Int) = s := by
        rw [hwP]
        calc (if s < 0 then (-1 : Int) else 1) * ((q * P : Nat) : Int)
            + (if s < 0 then (-1 : Int) else 1) * ((r : Nat) : Int)
            = (if s < 0 then (-1 : Int) else 1)
              * (((q * P : Nat) : Int) + ((r : Nat) : Int)) := by ring
          _ = (if s < 0 then (-1 : Int) else 1) * ((n : Nat) : Int) := by
              congr 1
              exact_mod_cast congrArg (Nat.cast : Nat → Int) hdm
          _ = s := hσn
      have hadd := addInt64_ok
        ((if s < 0 then (-1 : Int) else 1) * (q : Int) * ((P : Nat) : Int))
        ((if s < 0 then (-1 : Int) else 1) * (r : Int)) (by rw [hwfP]; exact hs)
      simp only [hcast, hmul, hadd]
      simp
      by_cases hc : s < 0
      · simp only [if_pos hc] at hwfP ⊢
        linarith [hwfP]
      · simp only [if_neg hc] at hwfP ⊢
        linarith [hwfP]
  rw [ht]
  exact hgoal

theorem calcRound_exact_none (s sc : Int) (h0 : 0 ≤ sc) (h19 : sc ≤ 19)
    (hbig : s.natAbs ≤ 18446744073709551616) (hs : ¬ int64Range s) :
    calcRound ⟨s, sc.toNat⟩ sc = none := by
  have hR : decRound ⟨s, sc.toNat⟩ sc = ⟨s, sc.toNat⟩ := by
    unfold decRound
    simp
  obtain ⟨t, ht⟩ : ∃ t, sc.toNat = t := ⟨_, rfl⟩
  have htsc : (t : Int) = sc := by omega
  obtain ⟨P, hP⟩ : ∃ P, (10 : Nat) ^ t = P := ⟨_, rfl⟩
  have hP1 : 1 ≤ P := hP ▸ Nat.one_le_pow t 10 (by norm_num)
  obtain ⟨n, hn⟩ : ∃ n, s.natAbs = n := ⟨_, rfl⟩
  have hn64 : n ≤ 18446744073709551616 := hn ▸ hbig
  have hnbig : 9223372036854775807 < n := by
    unfold int64Range minInt64 maxInt64 at hs; omega
  obtain ⟨q, hq⟩ : ∃ q, n / P = q := ⟨_, rfl⟩
  obtain ⟨r, hr⟩ : ∃ r, n % P = r := ⟨_, rfl⟩
  have hdiv : q ≤ n := hq ▸ Nat.div_le_self n P
  have hrP : r < P := hr ▸ Nat.mod_lt n (by omega)
  have hdm : q * P + r = n := by
    rw [← hq, ← hr, mul_comm (n / P) P]
    exact Nat.div_add_mod n P
  have hσn : (if s < 0 then (-1 : Int) else 1) * (n : Int) = s := by
    rw [← hn]; exact sgn_mul_natAbs s
  by_cases hwf : int64Range ((if s < 0 then (-1 : Int) else 1) * (q : Int))
      ∧ int64Range ((if s < 0 then (-1 : Int) else 1) * (r : Int))
  case neg =>
    have hI : decInt64 ⟨s, t⟩ sc = none := by
      unfold decInt64
      rw [if_pos ⟨h0, by simp [htsc]⟩]
      dsimp only
      simp only [ht, Nat.sub_self, pow_zero, mul_one, hP, hn, hq, hr]
      rw [if_neg hwf]
    have hgoal : calcRound ⟨s, t⟩ sc = none := by
      unfold calcRound
      simp only [show decRound ⟨s, t⟩ sc = ⟨s, t⟩ from ht ▸ hR, hI]
      rfl
    rw [ht]
    exact hgoal
  case pos =>
    obtain ⟨hwrange, hfrange⟩ := hwf
    have hI : decInt64 ⟨s, t⟩ sc = some
        ((if s < 0 then (-1 : Int) else 1) * (q : Int),
         (if s < 0 then (-1 : Int) else 1) * (r : Int)) := by
      unfold decInt64
      rw [if_pos ⟨h0, by simp [htsc]⟩]
      dsimp only
      simp only [ht, Nat.sub_self, pow_zero, mul_one, hP, hn, hq, hr]
      rw [if_pos ⟨hwrange, hfrange⟩]
    have hsc1 : 1 ≤ sc := by
      by_contra hc
      have ht0 : t = 0 := by omega
      have hPone : P = 1 := by rw [← hP, ht0, pow_zero]
      have hq' : q = n := by rw [← hq, hPone, Nat.div_one]
      rw [hq', hσn] at hwrange
      exact hs hwrange
    have hsum : (if s < 0 then (-1 : Int) else 1) * (q : Int) * ((P : Nat) : Int)
        + (if s < 0 then (-1 : Int) else 1) * (r : Int) = s := by
      calc (if s < 0 then (-1 : Int) else 1) * (q : Int) * ((P : Nat) : Int)
          + (if s < 0 then (-1 : Int) else 1) * ((r : Nat) : Int)
          = (if s < 0 then (-1 : Int) else 1)
            * (((q * P : Nat) : Int) + ((r : Nat) : Int)) := by push_cast; ring
        _ = (if s < 0 then (-1 : Int) else 1) * ((n : Nat) : Int) := by
            congr 1
            exact_mod_cast congrArg (Nat.cast : Nat → Int) hdm
        _ = s := hσn
    have hgoal : calcRound ⟨s, t⟩ sc = none := by
      unfold calcRound
      simp only [show decRound ⟨s, t⟩ sc = ⟨s, t⟩ from ht ▸ hR, hI]
      show combineInt64 _ _ sc = none
      unfold combineInt64
      rw [if_neg (by omega), if_neg (by omega)]
      by_cases hsc19 : sc = 19
      · rw [pow10Int64_none sc (by omega)]
      · have h18 : sc ≤ 18 := by omega
        rw [pow10Int64_ok sc h0 h18]
        dsimp only
        have hcast : ((10 : Int) ^ sc.toNat) = ((P : Nat) : Int) := by
          rw [ht, ← hP]; push_cast; rfl
        rw [hcast]
        have hP10 : 10 ≤ P := by
          rw [← hP]
          calc (10 : Nat) = 10 ^ 1 := by norm_num
            _ ≤ 10 ^ t := Nat.pow_le_pow_right (by norm_num) (by omega)
        have hPrange : int64Range ((P : Nat) : Int) := by
          unfold int64Range minInt64 maxInt64
          have hP18 : P ≤ 10 ^ 18 := by
            rw [← hP]
            exact Nat.pow_le_pow_right (by norm_num) (by omega)
          constructor
          · exact le_trans (by norm_num) (Int.natCast_nonneg P)
          · exact_mod_cast le_trans hP18 (by norm_num)
        have habsσ : |if s < 0 then (-1 : Int) else 1| = 1 := by
          split <;> simp
        have hwP : (if s < 0 then (-1 : Int) else 1) * (q : Int) * ((P : Nat) : Int)
            = (if s < 0 then (-1 : Int) else 1) * ((q * P : Nat) : Int) := by
          push_cast; ring
        have habs : |(if s < 0 then (-1 : Int) else 1) * (q : Int) * ((P : Nat) : Int)|
            = ((q * P : Nat) : Int) := by
          rw [hwP, abs_mul, habsσ, one_mul, abs_of_nonneg (Int.natCast_nonneg _)]
        by_cases hqP : 9223372036854775807 < q * P
        · have hmulf := mulInt64_overflow
            ((if s < 0 then (-1 : Int) else 1) * (q : Int)) ((P : Nat) : Int)
            hwrange hPrange
            (by rw [habs]; unfold maxInt64; exact_mod_cast hqP)
            (fun hc => by
              have h1 : ((P : Nat) : Int) = 1 := hc.2
              have : P = 1 := by exact_mod_cast h1
              omega)
            (fun hc => by
              have h1 : ((P : Nat) : Int) = minInt64 := hc.1
              have h2 := Int.natCast_nonneg P
              unfold minInt64 at h1
              omega)
          simp only [hmulf]
          rfl
        · push_neg at hqP
          have hmul := mulInt64_ok
            ((if s < 0 then (-1 : Int) else 1) * (q : Int)) ((P : Nat) : Int)
            hwrange hPrange
            (by rw [habs]; unfold maxInt64; exact_mod_cast hqP)
          have hwPrange : int64Range ((if s < 0 then (-1 : Int) else 1) * (q : Int)
              * ((P : Nat) : Int)) := by
            have hle : |(if s < 0 then (-1 : Int) else 1) * (q : Int)
                * ((P : Nat) : Int)| ≤ maxInt64 := by
              rw [habs]; unfold maxInt64; exact_mod_cast hqP
            obtain ⟨hl, hu⟩ := abs_le.mp hle
            unfold int64Range minInt64 maxInt64 at *
            constructor <;> omega
          have haddf := addInt64_overflow
            ((if s < 0 then (-1 : Int) else 1) * (q : Int) * ((P : Nat) : Int))
            ((if s < 0 then (-1 : Int) else 1) * (r : Int))
            hwPrange hfrange (by rw [hsum]; exact hs)
          simp only [hmul, haddf]
          rfl
    rw [ht]
    exact hgoal

theorem decAdd_same (x y : Int) (t : Nat) : decAdd ⟨x, t⟩ ⟨y, t⟩ = ⟨x + y, t⟩ := by
  unfold decAdd
  simp

theorem decSub_same (x y : Int) (t : Nat) : decSub ⟨x, t⟩ ⟨y, t⟩ = ⟨x - y, t⟩ := by
  unfold decSub
  simp

theorem calcAdd_eq_round (a b sc : Int) (h0 : 0 ≤ sc) (h19 : sc ≤ decMaxScale) :
    calcAdd a b sc = calcRound ⟨a + b, sc.toNat⟩ sc := by
  unfold calcAdd newAmount decNew
  simp only [if_pos (⟨h0, h19⟩ : 0 ≤ sc ∧ sc ≤ decMaxScale)]
  show calcRound (decAdd ⟨a, sc.toNat⟩ ⟨b, sc.toNat⟩) sc = _
  rw [decAdd_same]

theorem calcSub_eq_round (a b sc : Int) (h0 : 0 ≤ sc) (h19 : sc ≤ decMaxScale) :
    calcSub a b sc = calcRound ⟨a - b, sc.toNat⟩ sc := by
  unfold calcSub newAmount decNew
  simp only [if_pos (⟨h0, h19⟩ : 0 ≤ sc ∧ sc ≤ decMaxScale)]
  show calcRound (decSub ⟨a, sc.toNat⟩ ⟨b, sc.toNat⟩) sc = _
  rw [decSub_same]

theorem calcAdd_some (a b sc : Int) (h0 : 0 ≤ sc) (h18 : sc ≤ 18)
    (hsum : int64Range (a + b)) : calcAdd a b sc = some (a + b) := by
  rw [calcAdd_eq_round a b sc h0 (by unfold decMaxScale; omega)]
  exact calcRound_exact_some _ sc h0 h18 hsum

theorem calcSub_some (a b sc : Int) (h0 : 0 ≤ sc) (h18 : sc ≤ 18)
    (hdiff : int64Range (a - b)) : calcSub a b sc = some (a - b) := by
  rw [calcSub_eq_round a b sc h0 (by unfold decMaxScale; omega)]
  exact calcRound_exact_some _ sc h0 h18 hdiff

theorem calcAdd_none (a b sc : Int) (ha : int64Range a) (hb : int64Range b)
    (hsum : ¬ int64Range (a + b)) : calcAdd a b sc = none := by
  by_cases hsc : 0 ≤ sc ∧ sc ≤ decMaxScale
  · rw [calcAdd_eq_round a b sc hsc.1 hsc.2]
    apply calcRound_exact_none _ sc hsc.1 (by unfold decMaxScale at hsc; omega)
    · unfold int64Range minInt64 maxInt64 at ha hb
      omega
    · exact hsum
  · unfold calcAdd newAmount decNew
    rw [if_neg hsc]
    rfl

theorem calcSub_none (a b sc : Int) (ha : int64Range a) (hb : int64Range b)
    (hdiff : ¬ int64Range (a - b)) : calcSub a b sc = none := by
  by_cases hsc : 0 ≤ sc ∧ sc ≤ decMaxScale
  · rw [calcSub_eq_round a b sc hsc.1 hsc.2]
    apply calcRound_exact_none _ sc hsc.1 (by unfold decMaxScale at hsc; omega)
    · unfold int64Range minInt64 maxInt64 at ha hb
      omega
    · exact hdiff
  · unfold calcSub newAmount decNew
    rw [if_neg hsc]
    rfl

theorem calcCompare_self (a sc : Int) (h0 : 0 ≤ sc) (h19 : sc ≤ decMaxScale) :
    calcCompare a a sc = some 0 := by
  unfold calcCompare newAmount decNew
  simp only [if_pos (⟨h0, h19⟩ : 0 ≤ sc ∧ sc ≤ decMaxScale)]
  show some (decCmp ⟨a, sc.toNat⟩ ⟨a, sc.toNat⟩) = some 0
  unfold decCmp
  simp

theorem calcCompare_badScale (a b sc : Int) (hsc : ¬ (0 ≤ sc ∧ sc ≤ decMaxScale)) :
    calcCompare a b sc = none := by
  unfold calcCompare newAmount decNew
  rw [if_neg hsc]
  rfl

theorem sameCurrency_refl (c : Currency) : sameCurrency c c = true := by
  simp [sameCurrency]

/-! ### Claim theorems -/

/-- C1: for the Money value 19990 at scale 2 (currency TRY with symbol
"₺"), SubtractPercent 10 returns 17991; AddPercent 18 on that result
returns 21229; rendering the final value with the initial default format
configuration yields the text "₺212.29". -/
theorem C1_percent_roundtrip :
    (Money.New 19990 ⟨"TRY", 2, "₺"⟩).SubtractPercent 10
      = .ok (Money.New 17991 ⟨"TRY", 2, "₺"⟩)
    ∧ (Money.New 17991 ⟨"TRY", 2, "₺"⟩).AddPercent 18
      = .ok (Money.New 21229 ⟨"TRY", 2, "₺"⟩)
    ∧ (do
        let a ← (Money.New 19990 ⟨"TRY", 2, "₺"⟩).SubtractPercent 10
        a.AddPercent 18) = Except.ok (Money.New 21229 ⟨"TRY", 2, "₺"⟩)
    ∧ Money.String (Money.New 21229 ⟨"TRY", 2, "₺"⟩) initFormatConfig = "₺212.29" := by
  refine ⟨rfl, rfl, rfl, by decide⟩

/-- C3: two Money values with equal amounts whose currencies differ in
code, scale or symbol make add, sub, greater_than and less_than fail
with the currency-mismatch error (distinct from invalid-operation),
while equal returns false instead of failing. -/
theorem C3_currency_mismatch (amt : Int) (c1 c2 : Currency)
    (hdiff : c1.Code ≠ c2.Code ∨ c1.Scale ≠ c2.Scale ∨ c1.Symbol ≠ c2.Symbol) :
    (Money.New amt c1).Add (Money.New amt c2) = .error .currencyMismatch
    ∧ (Money.New amt c1).Sub (Money.New amt c2) = .error .currencyMismatch
    ∧ (Money.New amt c1).GreaterThan (Money.New amt c2) = .error .currencyMismatch
    ∧ (Money.New amt c1).LessThan (Money.New amt c2) = .error .currencyMismatch
    ∧ (Money.New amt c1).Equal (Money.New amt c2) = false
    ∧ MoneyErr.currencyMismatch ≠ MoneyErr.invalidOperation := by
  have hsc : sameCurrency c1 c2 = false := by
    unfold sameCurrency
    rcases hdiff with h | h | h <;> simp [h]
  refine ⟨?_, ?_, ?_, ?_, ?_, by decide⟩ <;>
    simp [Money.Add, Money.Sub, Money.GreaterThan, Money.LessThan, Money.Equal,
      Money.New, hsc]

theorem C3_witness :
    (Money.New 100 ⟨"USD", 2, "$"⟩).Add (Money.New 100 ⟨"EUR", 2, "€"⟩)
      = .error .currencyMismatch
    ∧ (Money.New 100 ⟨"USD", 2, "$"⟩).Sub (Money.New 100 ⟨"EUR", 2, "€"⟩)
      = .error .currencyMismatch
    ∧ (Money.New 100 ⟨"USD", 2, "$"⟩).GreaterThan (Money.New 100 ⟨"EUR", 2, "€"⟩)
      = .error .currencyMismatch
    ∧ (Money.New 100 ⟨"USD", 2, "$"⟩).LessThan (Money.New 100 ⟨"EUR", 2, "€"⟩)
      = .error .currencyMismatch
    ∧ (Money.New 100 ⟨"USD", 2, "$"⟩).Equal (Money.New 100 ⟨"EUR", 2, "€"⟩) = false
    ∧ MoneyErr.currencyMismatch ≠ MoneyErr.invalidOperation :=
  C3_currency_mismatch 100 ⟨"USD", 2, "$"⟩ ⟨"EUR", 2, "€"⟩ (Or.inl (by decide))

/-- C10: Equal is not reflexive at the public interface: when the
currency scale is negative or exceeds the decimal engine's maximum
supported scale, m.Equal m returns false because the internal decimal
construction fails and Equal degrades that failure to false; Equal is
reflexive exactly when the scale is within the supported range. -/
theorem C10_equal_reflexivity (a : Int) (c : Currency) :
    ((c.Scale < 0 ∨ decMaxScale < c.Scale) →
      (Money.New a c).Equal (Money.New a c) = false)
    ∧ (0 ≤ c.Scale → c.Scale ≤ decMaxScale →
      (Money.New a c).Equal (Money.New a c) = true) := by
  constructor
  · intro h
    unfold Money.Equal Money.New
    rw [sameCurrency_refl]
    rw [calcCompare_badScale a a c.Scale (by intro hc; rcases h with h | h <;> omega)]
    simp
  · intro h0 h19
    unfold Money.Equal Money.New
    rw [sameCurrency_refl]
    rw [calcCompare_self a c.Scale h0 h19]
    simp

theorem C10_witness :
    (Money.New 5 ⟨"XTS", -1, ""⟩).Equal (Money.New 5 ⟨"XTS", -1, ""⟩) = false
    ∧ (Money.New 5 ⟨"USD", 2, "$"⟩).Equal (Money.New 5 ⟨"USD", 2, "$"⟩) = true :=
  ⟨(C10_equal_reflexivity 5 ⟨"XTS", -1, ""⟩).1 (Or.inl (by decide)),
   (C10_equal_reflexivity 5 ⟨"USD", 2, "$"⟩).2 (by decide) (by decide)⟩

/-- C5 counterexample: the claim says multiplying the minimum value by
any factor other than 1 is detected as overflow, but the factor 0 is
computed successfully as 0. -/
theorem C5_counterexample :
    mulInt64 minInt64 0 = (0, true) ∧ ¬ (mulInt64 minInt64 0).2 = false := by
  refine ⟨by decide, by decide⟩

/-- C5 (amended): multiplying the minimum value by 1 succeeds and
returns it unchanged, multiplying it by -1 or any other factor except 0
and 1 is detected as overflow (while 0 yields 0 and true), and the
absolute-value-as-unsigned conversion returns the magnitude 2^63 for
the minimum value. -/
theorem C5_min_multiply (b : Int) (hb : int64Range b) (hb0 : b ≠ 0) (hb1 : b ≠ 1) :
    mulInt64 minInt64 1 = (minInt64, true)
    ∧ (mulInt64 minInt64 b).2 = false
    ∧ absInt64 minInt64 = 9223372036854775808 := by
  refine ⟨by decide, ?_, by decide⟩
  have habs : maxInt64 < |minInt64 * b| := by
    rw [abs_mul]
    have h1 : |minInt64| = 9223372036854775808 := by decide
    have h2 : 1 ≤ |b| := Int.one_le_abs hb0
    rw [h1]
    unfold maxInt64
    nlinarith
  exact mulInt64_overflow minInt64 b (by decide) hb habs
    (fun hc => hb1 hc.2)
    (fun hc => absurd hc.2 (by decide))

theorem C5_witness :
    mulInt64 minInt64 1 = (minInt64, true)
    ∧ (mulInt64 minInt64 (-1)).2 = false
    ∧ absInt64 minInt64 = 9223372036854775808 :=
  C5_min_multiply (-1) (by decide) (by decide) (by decide)

/-- C6 counterexample: the claim promises the exact decimal (100 + p)/100
for every integer percent p, but at p = 2^63 - 1 the Go addition
100 + p wraps around and the multiplier coefficient is not 100 + p. -/
theorem C6_counterexample :
    percentMultiplier 9223372036854775807 true
      ≠ some ⟨100 + 9223372036854775807, 2⟩
    ∧ percentMultiplier 9223372036854775807 true
      = some ⟨-9223372036854775709, 2⟩ := by
  refine ⟨by decide, by decide⟩

/-- C6 (amended): whenever 100 + p respectively 100 - p stays within the
signed 64-bit range, the multiplier builder produces the exact decimal
(100 + p)/100 for an increase and (100 - p)/100 for a decrease with 2
implied fractional digits, with no clamping: a decrease with p > 100 has
a negative coefficient, and for example subtracting 200 percent from
10000 yields -10000 rather than an error. -/
theorem C6_percent_multiplier (p : Int)
    (hadd : int64Range (100 + p)) (hsub : int64Range (100 - p)) :
    percentMultiplier p true = some ⟨100 + p, 2⟩
    ∧ percentMultiplier p false = some ⟨100 - p, 2⟩
    ∧ (100 < p → 100 - p < 0)
    ∧ calcSubtractPercent 10000 200 2 = some (-10000) := by
  obtain ⟨ha1, ha2⟩ := hadd
  obtain ⟨hs1, hs2⟩ := hsub
  refine ⟨?_, ?_, by omega, by decide⟩
  · unfold percentMultiplier
    simp only [if_pos]
    rw [wrap64_eq_self _ ha1 ha2]
    unfold decNew decMaxScale
    rw [if_pos (by constructor <;> norm_num)]
    rfl
  · unfold percentMultiplier
    simp only [Bool.false_eq_true, if_false]
    rw [wrap64_eq_self _ hs1 hs2]
    unfold decNew decMaxScale
    rw [if_pos (by constructor <;> norm_num)]
    rfl

theorem C6_witness :
    percentMultiplier 200 true = some ⟨300, 2⟩
    ∧ percentMultiplier 200 false = some ⟨-100, 2⟩
    ∧ (100 < 200 → (100 : Int) - 200 < 0)
    ∧ calcSubtractPercent 10000 200 2 = some (-10000) := by
  have h := C6_percent_multiplier 200 (by decide) (by decide)
  simpa using h

theorem MoneyAdd_same (m x : Money) (hsame : sameCurrency m.currency x.currency = true) :
    m.Add x = (match calcAdd m.amount x.amount m.currency.Scale with
      | some amount => .ok ⟨amount, m.currency⟩
      | none => .error .invalidOperation) := by
  unfold Money.Add
  rw [if_pos hsame]

theorem MoneySub_same (m x : Money) (hsame : sameCurrency m.currency x.currency = true) :
    m.Sub x = (match calcSub m.amount x.amount m.currency.Scale with
      | some amount => .ok ⟨amount, m.currency⟩
      | none => .error .invalidOperation) := by
  unfold Money.Sub
  rw [if_pos hsame]

/-- C2 counterexample: the claim has an add of the maximum representable
amount and a zero-valued counter-operand succeed for every currency, but
at currency scale 19 the minor-unit recombination cannot represent
10^19 in a signed 64-bit integer and the operation fails. -/
theorem C2_counterexample :
    (Money.New maxInt64 ⟨"USD", 19, "$"⟩).Add (Money.Zero ⟨"USD", 19, "$"⟩)
      = .error .invalidOperation := by
  rfl

/-- C2 (amended): for same-currency operands inside the signed 64-bit
range, an add or sub whose exact result lies outside that range fails
with the invalid-operation error (never wrapping), and provided the
currency scale lies in 0..18 the same operations at the exact boundary
(the maximum or minimum amount with a zero-valued counter-operand)
succeed and return the boundary value unchanged. -/
theorem C2_overflow_boundary (m x : Money)
    (hm : int64Range m.amount) (hx : int64Range x.amount) :
    (¬ int64Range (m.amount + x.amount) →
      sameCurrency m.currency x.currency = true →
      m.Add x = .error .invalidOperation)
    ∧ (¬ int64Range (m.amount - x.amount) →
      sameCurrency m.currency x.currency = true →
      m.Sub x = .error .invalidOperation)
    ∧ (0 ≤ m.currency.Scale → m.currency.Scale ≤ 18 →
      ((Money.New maxInt64 m.currency).Add (Money.Zero m.currency)
          = .ok (Money.New maxInt64 m.currency)
       ∧ (Money.New minInt64 m.currency).Add (Money.Zero m.currency)
          = .ok (Money.New minInt64 m.currency)
       ∧ (Money.New maxInt64 m.currency).Sub (Money.Zero m.currency)
          = .ok (Money.New maxInt64 m.currency)
       ∧ (Money.New minInt64 m.currency).Sub (Money.Zero m.currency)
          = .ok (Money.New minInt64 m.currency))) := by
  refine ⟨?_, ?_, ?_⟩
  · intro hover hsame
    rw [MoneyAdd_same m x hsame, calcAdd_none _ _ _ hm hx hover]
  · intro hover hsame
    rw [MoneySub_same m x hsame, calcSub_none _ _ _ hm hx hover]
  · intro h0 h18
    have hrange1 : int64Range (maxInt64 + 0) := by decide
    have hrange2 : int64Range (minInt64 + 0) := by decide
    have hrange3 : int64Range (maxInt64 - 0) := by decide
    have hrange4 : int64Range (minInt64 - 0) := by decide
    refine ⟨?_, ?_, ?_, ?_⟩
    · rw [MoneyAdd_same (Money.New maxInt64 m.currency) (Money.Zero m.currency)
          (sameCurrency_refl m.currency)]
      dsimp only [Money.New, Money.Zero]
      rw [calcAdd_some maxInt64 0 m.currency.Scale h0 h18 hrange1]
      norm_num
    · rw [MoneyAdd_same (Money.New minInt64 m.currency) (Money.Zero m.currency)
          (sameCurrency_refl m.currency)]
      dsimp only [Money.New, Money.Zero]
      rw [calcAdd_some minInt64 0 m.currency.Scale h0 h18 hrange2]
      norm_num
    · rw [MoneySub_same (Money.New maxInt64 m.currency) (Money.Zero m.currency)
          (sameCurrency_refl m.currency)]
      dsimp only [Money.New, Money.Zero]
      rw [calcSub_some maxInt64 0 m.currency.Scale h0 h18 hrange3]
      norm_num
    · rw [MoneySub_same (Money.New minInt64 m.currency) (Money.Zero m.currency)
          (sameCurrency_refl m.currency)]
      dsimp only [Money.New, Money.Zero]
      rw [calcSub_some minInt64 0 m.currency.Scale h0 h18 hrange4]
      norm_num

theorem C2_witness :
    ((Money.mk maxInt64 ⟨"USD", 2, "$"⟩).Add (Money.mk 1 ⟨"USD", 2, "$"⟩)
        = .error .invalidOperation)
    ∧ ((Money.New maxInt64 ⟨"USD", 2, "$"⟩).Add (Money.Zero ⟨"USD", 2, "$"⟩)
          = .ok (Money.New maxInt64 ⟨"USD", 2, "$"⟩)
       ∧ (Money.New minInt64 ⟨"USD", 2, "$"⟩).Add (Money.Zero ⟨"USD", 2, "$"⟩)
          = .ok (Money.New minInt64 ⟨"USD", 2, "$"⟩)
       ∧ (Money.New maxInt64 ⟨"USD", 2, "$"⟩).Sub (Money.Zero ⟨"USD", 2, "$"⟩)
          = .ok (Money.New maxInt64 ⟨"USD", 2, "$"⟩)
       ∧ (Money.New minInt64 ⟨"USD", 2, "$"⟩).Sub (Money.Zero ⟨"USD", 2, "$"⟩)
          = .ok (Money.New minInt64 ⟨"USD", 2, "$"⟩)) :=
  ⟨(C2_overflow_boundary (Money.mk maxInt64 ⟨"USD", 2, "$"⟩)
      (Money.mk 1 ⟨"USD", 2, "$"⟩) (by decide) (by decide)).1
        (by decide) (by decide),
   (C2_overflow_boundary (Money.mk maxInt64 ⟨"USD", 2, "$"⟩)
      (Money.mk 1 ⟨"USD", 2, "$"⟩) (by decide) (by decide)).2.2
        (by decide) (by decide)⟩

/-- C9 counterexample: the claim quantifies over all same-currency pairs
with a representable sum, but at currency scale 19 even 0 + 0 fails in
the minor-unit recombination, so add-then-sub does not return the
original value. -/
theorem C9_counterexample :
    ¬ (((Money.New 0 ⟨"XTS", 19, ""⟩).Add (Money.New 0 ⟨"XTS", 19, ""⟩)).bind
        (fun r => r.Sub (Money.New 0 ⟨"XTS", 19, ""⟩))
      = .ok (Money.New 0 ⟨"XTS", 19, ""⟩)) := by
  intro hcon
  exact Except.noConfusion hcon

/-- C9 (amended): for same-currency Money values inside the signed
64-bit range with a representable sum, and a currency scale in 0..18,
adding b to a and then subtracting b returns a Money equal to a, with
the same amount and the same currency. -/
theorem C9_add_sub_roundtrip (a b : Money)
    (hsame : sameCurrency a.currency b.currency = true)
    (ha : int64Range a.amount) (hb : int64Range b.amount)
    (hsum : int64Range (a.amount + b.amount))
    (h0 : 0 ≤ a.currency.Scale) (h18 : a.currency.Scale ≤ 18) :
    (a.Add b).bind (fun r => r.Sub b) = .ok a := by
  rw [MoneyAdd_same a b hsame, calcAdd_some _ _ _ h0 h18 hsum]
  show (Money.mk (a.amount + b.amount) a.currency).Sub b = .ok a
  rw [MoneySub_same ⟨a.amount + b.amount, a.currency⟩ b hsame]
  rw [calcSub_some _ _ _ h0 h18 (by rw [add_sub_cancel_right]; exact ha)]
  rw [add_sub_cancel_right]

theorem C9_witness :
    ((Money.New 1050 ⟨"USD", 2, "$"⟩).Add (Money.New 250 ⟨"USD", 2, "$"⟩)).bind
        (fun r => r.Sub (Money.New 250 ⟨"USD", 2, "$"⟩))
      = .ok (Money.New 1050 ⟨"USD", 2, "$"⟩) :=
  C9_add_sub_roundtrip (Money.New 1050 ⟨"USD", 2, "$"⟩) (Money.New 250 ⟨"USD", 2, "$"⟩)
    (by decide) (by decide) (by decide) (by decide) (by decide) (by decide)

theorem storeFold_valid (cfgs : List FormatConfig) (st : FormatConfig)
    (hst : validateFormat st = none) :
    validateFormat (cfgs.foldl (fun s c => (setFormatStep s c).2) st) = none := by
  induction cfgs generalizing st with
  | nil => exact hst
  | cons c rest ih =>
    show validateFormat (rest.foldl _ (setFormatStep st c).2) = none
    unfold setFormatStep
    cases h : validateFormat c with
    | none => simpa [h] using ih c h
    | some e => simpa [h] using ih st hst

theorem storeFold_filter (cfgs : List FormatConfig) (st : FormatConfig) :
    cfgs.foldl (fun s c => (setFormatStep s c).2) st
      = (cfgs.filter (fun c => (validateFormat c).isNone)).foldl (fun _ c => c) st := by
  induction cfgs generalizing st with
  | nil => rfl
  | cons c rest ih =>
    show rest.foldl (fun s c => (setFormatStep s c).2) (setFormatStep st c).2 = _
    have hstep : (setFormatStep st c).2
        = if (validateFormat c).isNone then c else st := by
      unfold setFormatStep
      cases h : validateFormat c <;> simp
    rw [hstep]
    cases h : (validateFormat c).isNone with
    | true => simp [List.filter_cons, h, ih]
    | false => simp [List.filter_cons, h, ih]

/-- C4: the global format store only ever holds a valid configuration:
the initial default is valid, the store stays valid after any sequence
of SetFormat calls, a rejected SetFormat leaves the stored configuration
unchanged, per-call formatting rejects an invalid configuration too, the
stored configuration is always the last one that passed validation (or
the initial default), and each listed violation (empty or multi-rune
decimal separator, multi-rune thousands separator, identical separators,
custom kind with empty custom symbol, unrecognized position or kind) is
rejected by validation. -/
theorem C4_format_store_invariant (cfgs : List FormatConfig)
    (st cfg : FormatConfig) (m : Money) :
    validateFormat initFormatConfig = none
    ∧ validateFormat (storeAfter cfgs) = none
    ∧ (∀ e, validateFormat cfg = some e → setFormatStep st cfg = (some e, st))
    ∧ (∀ e, validateFormat cfg = some e → m.Format cfg = .error e)
    ∧ storeAfter cfgs
        = (cfgs.filter (fun c => (validateFormat c).isNone)).foldl
            (fun _ c => c) initFormatConfig
    ∧ validateFormat ⟨"", "", SymbolPrefixPos, SymbolUseCurrencySymbol, "", false⟩
        = some .invalidOperation
    ∧ validateFormat ⟨"ab", "", SymbolPrefixPos, SymbolUseCurrencySymbol, "", false⟩
        = some .invalidOperation
    ∧ validateFormat ⟨".", "ab", SymbolPrefixPos, SymbolUseCurrencySymbol, "", false⟩
        = some .invalidOperation
    ∧ validateFormat ⟨".", ".", SymbolPrefixPos, SymbolUseCurrencySymbol, "", false⟩
        = some .invalidOperation
    ∧ validateFormat ⟨".", "", SymbolPrefixPos, SymbolUseCustom, "", false⟩
        = some .invalidOperation
    ∧ validateFormat ⟨".", "", 7, SymbolUseCurrencySymbol, "", false⟩
        = some .invalidOperation
    ∧ validateFormat ⟨".", "", SymbolPrefixPos, 9, "", false⟩
        = some .invalidOperation := by
  refine ⟨by decide, ?_, ?_, ?_, ?_, by decide, by decide, by decide, by decide,
    by decide, by decide, by decide⟩
  · exact storeFold_valid cfgs initFormatConfig (by decide)
  · intro e he
    unfold setFormatStep
    rw [he]
  · intro e he
    unfold Money.Format
    rw [he]
  · exact storeFold_filter cfgs initFormatConfig

theorem C4_witness :
    validateFormat initFormatConfig = none
    ∧ validateFormat (storeAfter [⟨"", "", SymbolPrefixPos, SymbolUseCurrencySymbol,
        "", false⟩]) = none
    ∧ setFormatStep initFormatConfig
        ⟨"", "", SymbolPrefixPos, SymbolUseCurrencySymbol, "", false⟩
      = (some .invalidOperation, initFormatConfig)
    ∧ (Money.mk 1050 ⟨"USD", 2, "$"⟩).Format
        ⟨"", "", SymbolPrefixPos, SymbolUseCurrencySymbol, "", false⟩
      = .error .invalidOperation
    ∧ storeAfter [⟨"", "", SymbolPrefixPos, SymbolUseCurrencySymbol, "", false⟩]
        = initFormatConfig := by
  have h := C4_format_store_invariant
    [⟨"", "", SymbolPrefixPos, SymbolUseCurrencySymbol, "", false⟩]
    initFormatConfig
    ⟨"", "", SymbolPrefixPos, SymbolUseCurrencySymbol, "", false⟩
    (Money.mk 1050 ⟨"USD", 2, "$"⟩)
  refine ⟨h.1, h.2.1, h.2.2.1 .invalidOperation (by decide),
    h.2.2.2.1 .invalidOperation (by decide), ?_⟩
  have h5 := h.2.2.2.2.1
  simpa using h5

theorem formatSymbol_of_valid (c : Currency) (cfg : FormatConfig)
    (hv : validateFormat cfg = none) :
    ∃ sym, formatSymbol c cfg = some sym := by
  unfold validateFormat at hv
  split_ifs at hv with h1 h2 h3 h4 h5 h6 h7
  unfold formatSymbol
  split_ifs with k1 k2 k3 k4
  · exact ⟨c.Symbol, rfl⟩
  · exact ⟨c.Code, rfl⟩
  · exact absurd ⟨k3, k4⟩ h5
  · exact ⟨cfg.CustomSymbol, rfl⟩
  · exact absurd ⟨k1, k2, k3⟩ h7

/-- C8: under a valid configuration the rendered text is composed as
sign, symbol, optional space, amount in prefix-symbol mode and as sign,
amount, optional space, symbol in suffix mode; the inter-element space
appears exactly when the symbol is non-empty and the configuration
requests it; for a negative amount the minus sign is the first character
of the output even in prefix-symbol mode; concretely -105 at scale 2
under the initial default configuration renders as "-$1.05". -/
theorem C8_render_composition (m : Money) (cfg : FormatConfig)
    (hv : validateFormat cfg = none) :
    (cfg.SymbolPosition = SymbolSuffix →
      ∃ symbol, formatSymbol m.currency cfg = some symbol ∧
        formatWithConfig m cfg
          = some (signText m.amount ++ amountText m cfg ++ sepText cfg symbol ++ symbol))
    ∧ (cfg.SymbolPosition ≠ SymbolSuffix →
      ∃ symbol, formatSymbol m.currency cfg = some symbol ∧
        formatWithConfig m cfg
          = some (signText m.amount ++ symbol ++ sepText cfg symbol ++ amountText m cfg))
    ∧ (∀ symbol : String,
        (sepText cfg symbol = " " ↔ (cfg.Space = true ∧ symbol ≠ ""))
        ∧ (sepText cfg symbol = " " ∨ sepText cfg symbol = ""))
    ∧ (m.amount < 0 → ∀ s, formatWithConfig m cfg = some s →
        s.data.head? = some '-')
    ∧ Money.String (Money.mk (-105) ⟨"USD", 2, "$"⟩) initFormatConfig = "-$1.05" := by
  obtain ⟨sym, hsym⟩ := formatSymbol_of_valid m.currency cfg hv
  refine ⟨?_, ?_, ?_, ?_, by decide⟩
  · intro hpos
    refine ⟨sym, hsym, ?_⟩
    unfold formatWithConfig
    rw [hsym]
    dsimp only
    rw [if_pos hpos]
  · intro hpos
    refine ⟨sym, hsym, ?_⟩
    unfold formatWithConfig
    rw [hsym]
    dsimp only
    rw [if_neg hpos]
  · intro symbol
    unfold sepText
    constructor
    · split_ifs with hs hsp
      · constructor
        · intro hc
          exact absurd hc (by decide)
        · intro hc
          exact absurd hs hc.2
      · constructor
        · intro hc
          exact ⟨hsp, hs⟩
        · intro hc
          rfl
      · constructor
        · intro hc
          exact absurd hc (by decide)
        · intro hc
          exact absurd hc.1 (by simpa using hsp)
    · split_ifs <;> simp
  · intro hneg s hs
    unfold formatWithConfig at hs
    rw [hsym] at hs
    dsimp only at hs
    have hsign : signText m.amount = "-" := by
      unfold signText
      rw [if_pos hneg]
    split_ifs at hs
    · have hseq := Option.some.inj hs
      rw [← hseq, hsign]
      rw [show ("-" ++ amountText m cfg ++ sepText cfg sym ++ sym).data
          = '-' :: (amountText m cfg ++ sepText cfg sym ++ sym).data by
        simp [String.data_append]]
      rfl
    · have hseq := Option.some.inj hs
      rw [← hseq, hsign]
      rw [show ("-" ++ sym ++ sepText cfg sym ++ amountText m cfg).data
          = '-' :: (sym ++ sepText cfg sym ++ amountText m cfg).data by
        simp [String.data_append]]
      rfl

theorem C8_witness :
    (∃ symbol,
      formatSymbol (Money.mk (-105) ⟨"USD", 2, "$"⟩).currency initFormatConfig
        = some symbol ∧
      formatWithConfig (Money.mk (-105) ⟨"USD", 2, "$"⟩) initFormatConfig
        = some (signText (Money.mk (-105) ⟨"USD", 2, "$"⟩).amount ++ symbol
            ++ sepText initFormatConfig symbol
            ++ amountText (Money.mk (-105) ⟨"USD", 2, "$"⟩) initFormatConfig))
    ∧ Money.String (Money.mk (-105) ⟨"USD", 2, "$"⟩) initFormatConfig = "-$1.05" := by
  have h := C8_render_composition (Money.mk (-105) ⟨"USD", 2, "$"⟩)
    initFormatConfig (by decide)
  exact ⟨h.2.1 (by decide), h.2.2.2.2⟩

theorem calcDiv_zero (v sc : Int) : calcDiv v 0 sc = none := by
  unfold calcDiv
  cases hsc : newAmount v sc with
  | none => rfl
  | some da => rfl

/-- C7: dividing any minor-unit value at any scale by zero is rejected
as a failure by the arithmetic engine and surfaces as the
invalid-operation error on Money (never an infinite or NaN-like value),
and division targets the requested scale directly: the quotient already
carries exactly the target scale, so the subsequent rounding step leaves
it unchanged. -/
theorem C7_division (m : Money) (v sc : Int) (a b q : Dec) (s : Int) :
    calcDiv v 0 sc = none
    ∧ m.Div 0 = .error .invalidOperation
    ∧ (decQuoExact a b s = some q → decRound q s = q) := by
  refine ⟨calcDiv_zero v sc, ?_, ?_⟩
  · unfold Money.Div
    rw [calcDiv_zero m.amount m.currency.Scale]
  · intro h
    unfold decQuoExact at h
    split_ifs at h with h1 h2
    have hq := Option.some.inj h
    rw [← hq]
    unfold decRound
    simp

theorem C7_witness :
    calcDiv 2100 0 2 = none
    ∧ (Money.mk 2100 ⟨"USD", 2, "$"⟩).Div 0 = .error .invalidOperation
    ∧ (decQuoExact ⟨2100, 2⟩ ⟨3, 0⟩ 2 = some ⟨700, 2⟩ →
        decRound ⟨700, 2⟩ 2 = ⟨700, 2⟩) := by
  have h := C7_division (Money.mk 2100 ⟨"USD", 2, "$"⟩) 2100 2
    ⟨2100, 2⟩ ⟨3, 0⟩ ⟨700, 2⟩ 2
  exact h

end GoMoney
